import Mathlib

/-!
# Verification of the Swiss-tournament pairing/scoring engine

Shallow embedding of the core classes of `croquet_app.py` (`Player`,
`Match`, `SwissTournament`). Python objects mutated in place are modelled
by explicit state passing: the roster is a `List Player`, a `Match` stores
the `id`s of the players it references (ids are distinct in every state the
program constructs, so the id is a faithful proxy for the object
reference), and every mutating method becomes a function returning the
updated state. Python `int` is `Int`; a Python `set` that is only ever
used for `in`-tests and `add` is a `List Nat` with de-duplicating insert.
-/

set_option autoImplicit false

/-- `Player.__init__`: id, name, and the four mutable aggregates, plus the
set of opponent ids.  Aggregates start at `0`, `opponents` empty. -/
structure Player where
  id : Nat
  name : String
  points : Int
  wins : Int
  hoops_scored : Int
  hoops_conceded : Int
  opponents : List Nat
deriving DecidableEq

/-- Python `set.add`: insert an element unless already present (the set is
only read through membership tests, so a duplicate-free list models it). -/
def listInsert (i : Nat) (l : List Nat) : List Nat :=
  if i ∈ l then l else i :: l

/-- `Player.add_opponent`. -/
def Player.add_opponent (p : Player) (opponent_id : Nat) : Player :=
  { p with opponents := listInsert opponent_id p.opponents }

/-- A `Match` holds references to its one or two players (modelled by id)
and an optional result `(hoops1, hoops2)`. -/
structure Match where
  player1 : Nat
  player2 : Option Nat
  result : Option (Int × Int)
deriving DecidableEq

/-- In-place mutation of the roster object(s) with the given id. -/
def updatePlayer (ps : List Player) (i : Nat) (f : Player → Player) : List Player :=
  ps.map fun p => if p.id = i then f p else p

/-- The aggregate mutation performed by `Match.set_result` on a non-bye
match between the players with ids `i` (player1) and `j` (player2):
add the hoop deltas, then credit a win and a point to the winner. -/
def applyScore (i j : Nat) (h1 h2 : Int) (ps : List Player) : List Player :=
  let ps1 := updatePlayer ps i fun p =>
    { p with hoops_scored := p.hoops_scored + h1, hoops_conceded := p.hoops_conceded + h2 }
  let ps2 := updatePlayer ps1 j fun p =>
    { p with hoops_scored := p.hoops_scored + h2, hoops_conceded := p.hoops_conceded + h1 }
  if h1 > h2 then
    updatePlayer ps2 i fun p => { p with wins := p.wins + 1, points := p.points + 1 }
  else if h2 > h1 then
    updatePlayer ps2 j fun p => { p with wins := p.wins + 1, points := p.points + 1 }
  else ps2

/-- The exact inverse deltas, as performed by `record_result` (lines
132–144) before overwriting an existing result: subtract the old hoops and
take back the win/point if `old` had a winner. -/
def reverseScore (i j : Nat) (h1 h2 : Int) (ps : List Player) : List Player :=
  let ps1 := updatePlayer ps i fun p =>
    { p with hoops_scored := p.hoops_scored - h1, hoops_conceded := p.hoops_conceded - h2 }
  let ps2 := updatePlayer ps1 j fun p =>
    { p with hoops_scored := p.hoops_scored - h2, hoops_conceded := p.hoops_conceded - h1 }
  if h1 > h2 then
    updatePlayer ps2 i fun p => { p with wins := p.wins - 1, points := p.points - 1 }
  else if h2 > h1 then
    updatePlayer ps2 j fun p => { p with wins := p.wins - 1, points := p.points - 1 }
  else ps2

/-- `Match.set_result`: for a bye (`player2 = None`) only the result is
stored; otherwise the hoop/win/point deltas are applied to the two players
and the result is stored.  Returns the updated roster and match. -/
def Match.set_result (m : Match) (ps : List Player) (h1 h2 : Int) :
    List Player × Match :=
  match m.player2 with
  | none => (ps, { m with result := some (h1, h2) })
  | some j => (applyScore m.player1 j h1 h2 ps, { m with result := some (h1, h2) })

/-- `Match.get_scores`: the stored result, or `(0, 0)` when unscored. -/
def Match.get_scores (m : Match) : Int × Int :=
  m.result.getD (0, 0)

/-- `SwissTournament`: the roster, the ordered list of rounds (each a list
of matches), and the requested number of rounds. -/
structure SwissTournament where
  players : List Player
  rounds : List (List Match)
  num_rounds : Nat
deriving DecidableEq

/-- The match stored at `rounds[round_num][match_num]`, if the indices are
in range (the bounds check at line 126). -/
def matchAt (t : SwissTournament) (round_num match_num : Nat) : Option Match :=
  (t.rounds.get? round_num).bind fun rnd => rnd.get? match_num

/-- `SwissTournament.record_result`: out-of-range indices are ignored; an
existing result on a non-bye match is reversed (exact inverse deltas of
the old score); then `set_result` applies the new score. -/
def SwissTournament.record_result (t : SwissTournament)
    (round_num match_num : Nat) (hoops1 hoops2 : Int) : SwissTournament :=
  match t.rounds.get? round_num with
  | none => t
  | some rnd =>
    match rnd.get? match_num with
    | none => t
    | some m =>
      let old := m.get_scores
      let ps : List Player :=
        match m.result, m.player2 with
        | some _, some j => reverseScore m.player1 j old.1 old.2 t.players
        | _, _ => t.players
      let res := m.set_result ps hoops1 hoops2
      { t with players := res.1,
               rounds := t.rounds.set round_num (rnd.set match_num res.2) }

/-- The sort key of `get_standings`:
`(points, hoops_scored - hoops_conceded, hoops_scored)`. -/
def sortKey (p : Player) : Int × Int × Int :=
  (p.points, p.hoops_scored - p.hoops_conceded, p.hoops_scored)

/-- Lexicographic strict order on the sort key (Python tuple `>`). -/
def keyGt (a b : Int × Int × Int) : Prop :=
  b.1 < a.1 ∨ (a.1 = b.1 ∧ (b.2.1 < a.2.1 ∨ (a.2.1 = b.2.1 ∧ b.2.2 < a.2.2)))

instance (a b : Int × Int × Int) : Decidable (keyGt a b) := by
  unfold keyGt; infer_instance

/-- One insertion step of a stable descending sort: the new element goes in
front of the first element whose key is not strictly greater, so elements
with equal keys keep their original relative order — the behaviour of
Python `sorted(..., reverse=True)`. -/
def insertRev (p : Player) : List Player → List Player
  | [] => [p]
  | q :: qs => if keyGt (sortKey q) (sortKey p) then q :: insertRev p qs else p :: q :: qs

/-- `SwissTournament.get_standings`:
`sorted(self.players, key=..., reverse=True)` — a stable descending sort
of the roster by `sortKey`. -/
def SwissTournament.get_standings (t : SwissTournament) : List Player :=
  t.players.foldr insertRev []

/-- The current opponents set of the roster object that the reference `p`
points at (`add_opponent` mutates the shared roster objects in place, so
the scan reads current state; the `getD p` fallback is never reached when
`p`'s id is in the roster). -/
def currentOpps (roster : List Player) (p : Player) : List Nat :=
  ((roster.find? fun q => q.id == p.id).getD p).opponents

/-- The inner scan of `generate_round_pairings` (lines 102–106): the first
player in the remaining seeding order that is unassigned this round and
not in `p1`'s opponents set. -/
def findOpponent (opps used : List Nat) : List Player → Option Player
  | [] => none
  | p2 :: rest =>
    if p2.id ∉ used ∧ p2.id ∉ opps then some p2 else findOpponent opps used rest

/-- The main greedy scan of `generate_round_pairings` (lines 96–113),
threading the roster (for `add_opponent`), the `used_players` set and the
accumulated `round_pairings`.  A player with no qualifying opponent is
simply left unassigned. -/
def pairLoop (roster : List Player) (used : List Nat) (acc : List Match) :
    List Player → List Player × List Nat × List Match
  | [] => (roster, used, acc)
  | p1 :: rest =>
    if p1.id ∈ used then pairLoop roster used acc rest
    else
      match findOpponent (currentOpps roster p1) used rest with
      | some p2 =>
        pairLoop
          (updatePlayer (updatePlayer roster p1.id fun q => q.add_opponent p2.id)
            p2.id fun q => q.add_opponent p1.id)
          (listInsert p2.id (listInsert p1.id used))
          (acc ++ [⟨p1.id, some p2.id, none⟩])
          rest
      | none => pairLoop roster used acc rest

/-- `while len(self.rounds) <= round_num: self.rounds.append([])`. -/
def padTo (rs : List (List Match)) (n : Nat) : List (List Match) :=
  rs ++ List.replicate (n - rs.length) []

/-- `SwissTournament.generate_round_pairings`, with the seeding order
`available` passed explicitly (the caller supplies the shuffled roster for
the opening round or `get_standings` for later rounds): run the greedy
scan, give the first still-unassigned player (if any) a bye, and store the
match list at index `round_num`. -/
def SwissTournament.generate_round_pairings (t : SwissTournament)
    (round_num : Nat) (available : List Player) : SwissTournament :=
  let res := pairLoop t.players [] [] available
  let remaining := available.filter fun p => p.id ∉ res.2.1
  let pairings :=
    match remaining with
    | [] => res.2.2
    | b :: _ => res.2.2 ++ [⟨b.id, none, none⟩]
  { t with players := res.1,
           rounds := (padTo t.rounds (round_num + 1)).set round_num pairings }

/-- `SwissTournament.__init__` (the list-of-names branch): players are
numbered by position with zeroed aggregates. -/
def initPlayers (names : List String) : List Player :=
  names.enum.map fun en =>
    { id := en.1, name := en.2, points := 0, wins := 0,
      hoops_scored := 0, hoops_conceded := 0, opponents := [] }

/-- `SwissTournament.__init__` (the list-of-names branch): all
`num_rounds` rounds are generated immediately, round 0 from the shuffled
roster (`shuffled` stands for the outcome of `random.shuffle` on a copy of
the player list), later rounds from the live standings. -/
def SwissTournament.create (names : List String) (num_rounds : Nat)
    (shuffled : List Player) : SwissTournament :=
  (List.range num_rounds).foldl
    (fun t r => t.generate_round_pairings r (if r = 0 then shuffled else t.get_standings))
    { players := initPlayers names, rounds := [], num_rounds := num_rounds }

/-! ## Specification-side definitions -/

/-- Strict descending order on the four-component key
`(points, hoops_scored − hoops_conceded, hoops_scored, −id)`:
`p` strictly precedes `q` when `p`'s key is lexicographically greater, the
`−id` component meaning that among equal keys the lower id comes first. -/
def standGt (p q : Player) : Prop :=
  keyGt (sortKey p) (sortKey q) ∨ (sortKey p = sortKey q ∧ p.id < q.id)

instance (p q : Player) : Decidable (standGt p q) := by
  unfold standGt; infer_instance

/-- The competitor ids occupying a match (both pairing slots, or the
single bye slot). -/
def matchIds (m : Match) : List Nat :=
  m.player1 :: m.player2.toList

/-- All competitor ids occurring in a round's matches. -/
def roundIds (ms : List Match) : List Nat :=
  ms.foldr (fun m acc => matchIds m ++ acc) []

/-- The roster data that the pairing history lives in: id and opponents
set of each player, in roster order. -/
def idOpps (p : Player) : Nat × List Nat :=
  (p.id, p.opponents)

/-- Well-formedness of a roster: pairwise-distinct ids, and an
opponents-played relation that is symmetric and irreflexive. -/
def PlayersWF (ps : List Player) : Prop :=
  (ps.map Player.id).Nodup ∧
  (∀ p ∈ ps, ∀ q ∈ ps, q.id ∈ p.opponents → p.id ∈ q.opponents) ∧
  (∀ p ∈ ps, p.id ∉ p.opponents)

/-- The tournament states the program can reach: a tournament constructed
from a name list (with some shuffle of the fresh roster as the opening
seeding order), then any interleaving of result recordings and round
generations (whose seeding order is always a permutation of the roster:
either a shuffle or `get_standings`). -/
inductive Reachable : SwissTournament → Prop
  | init (names : List String) (num_rounds : Nat) (shuffled : List Player)
      (h : shuffled.Perm (initPlayers names)) :
      Reachable (SwissTournament.create names num_rounds shuffled)
  | record {t : SwissTournament} (round_num match_num : Nat) (hoops1 hoops2 : Int)
      (ht : Reachable t) :
      Reachable (t.record_result round_num match_num hoops1 hoops2)
  | gen {t : SwissTournament} (round_num : Nat) (available : List Player)
      (ht : Reachable t) (h : available.Perm t.players) :
      Reachable (t.generate_round_pairings round_num available)

/-- The per-object effect on the roster of the two `add_opponent` calls
made when `i` (player1) is paired with `j` (player2), as a single map
function (used to reason about the pairing step). -/
def pairFn (i j : Nat) : Player → Player :=
  (fun p => if p.id = j then p.add_opponent i else p) ∘
    fun p => if p.id = i then p.add_opponent j else p

/-! ## Concrete states used by witnesses and counterexamples -/

/-- Two players, one round: round 0 pairs them. -/
def exT2 : SwissTournament :=
  SwissTournament.create ["A", "B"] 1 (initPlayers ["A", "B"])

/-- Two players, two rounds, identity shuffle. -/
def exT2b : SwissTournament :=
  SwissTournament.create ["A", "B"] 2 (initPlayers ["A", "B"])

/-- Three players, one round: round 0 pairs 0–1 and gives 2 the bye. -/
def exT3 : SwissTournament :=
  SwissTournament.create ["A", "B", "C"] 1 (initPlayers ["A", "B", "C"])

/-- Four players, two rounds. -/
def exT4 : SwissTournament :=
  SwissTournament.create ["A", "B", "C", "D"] 2 (initPlayers ["A", "B", "C", "D"])

/-- Five players, two rounds: an odd roster, so each round has a bye. -/
def exT5 : SwissTournament :=
  SwissTournament.create ["A", "B", "C", "D", "E"] 2
    (initPlayers ["A", "B", "C", "D", "E"])

example :
    exT2b.rounds = [[⟨0, some 1, none⟩], [⟨0, none, none⟩]] := by
  decide

example :
    exT5.rounds =
      [[⟨0, some 1, none⟩, ⟨2, some 3, none⟩, ⟨4, none, none⟩],
       [⟨0, some 2, none⟩, ⟨1, some 3, none⟩, ⟨4, none, none⟩]] := by
  decide

example :
    exT4.rounds =
      [[⟨0, some 1, none⟩, ⟨2, some 3, none⟩],
       [⟨0, some 2, none⟩, ⟨1, some 3, none⟩]] := by
  decide

example : matchAt exT3 0 1 = some ⟨2, none, none⟩ := by decide

example :
    (exT3.record_result 0 1 7 0).players = exT3.players := by decide

example :
    (exT2.record_result 0 0 (-1) 0).players ≠ exT2.players := by decide

/-! ## Helper lemmas: the shapes `record_result` can take -/

lemma map_id_of {α : Type} (f : α → α) (h : ∀ a, f a = a) :
    ∀ l : List α, l.map f = l := by
  intro l
  induction l with
  | nil => rfl
  | cons a l ih => simp [h, ih]

lemma record_result_no_round {t : SwissTournament} {rn : Nat} (mn : Nat)
    (a b : Int) (h : t.rounds.get? rn = none) :
    t.record_result rn mn a b = t := by
  unfold SwissTournament.record_result
  rw [h]

lemma record_result_no_match {t : SwissTournament} {rn mn : Nat} {rnd : List Match}
    (a b : Int) (h1 : t.rounds.get? rn = some rnd) (h2 : rnd.get? mn = none) :
    t.record_result rn mn a b = t := by
  unfold SwissTournament.record_result
  rw [h1]
  dsimp only
  rw [h2]

lemma record_result_bye {t : SwissTournament} {rn mn : Nat} {rnd : List Match}
    {p1 : Nat} {res : Option (Int × Int)} (a b : Int)
    (h1 : t.rounds.get? rn = some rnd) (h2 : rnd.get? mn = some ⟨p1, none, res⟩) :
    t.record_result rn mn a b =
      { t with rounds := t.rounds.set rn (rnd.set mn ⟨p1, none, some (a, b)⟩) } := by
  unfold SwissTournament.record_result
  rw [h1]
  dsimp only
  rw [h2]
  cases res <;> rfl

lemma record_result_fresh {t : SwissTournament} {rn mn : Nat} {rnd : List Match}
    {p1 j : Nat} (a b : Int)
    (h1 : t.rounds.get? rn = some rnd) (h2 : rnd.get? mn = some ⟨p1, some j, none⟩) :
    t.record_result rn mn a b =
      { t with players := applyScore p1 j a b t.players,
               rounds := t.rounds.set rn (rnd.set mn ⟨p1, some j, some (a, b)⟩) } := by
  unfold SwissTournament.record_result
  rw [h1]
  dsimp only
  rw [h2]
  rfl

lemma record_result_over {t : SwissTournament} {rn mn : Nat} {rnd : List Match}
    {p1 j : Nat} {o1 o2 : Int} (a b : Int)
    (h1 : t.rounds.get? rn = some rnd)
    (h2 : rnd.get? mn = some ⟨p1, some j, some (o1, o2)⟩) :
    t.record_result rn mn a b =
      { t with players := applyScore p1 j a b (reverseScore p1 j o1 o2 t.players),
               rounds := t.rounds.set rn (rnd.set mn ⟨p1, some j, some (a, b)⟩) } := by
  unfold SwissTournament.record_result
  rw [h1]
  dsimp only
  rw [h2]
  rfl

lemma lt_length_of_get? {α : Type} {l : List α} {n : Nat} {a : α}
    (h : l.get? n = some a) : n < l.length := by
  by_contra hn
  rw [List.get?_eq_none.mpr (by omega)] at h
  exact Option.noConfusion h

lemma matchAt_set_set {rs : List (List Match)} {rn mn : Nat} {rnd : List Match}
    (m' : Match) (ps : List Player) (k : Nat)
    (h1 : rs.get? rn = some rnd) (h2 : mn < rnd.length) :
    matchAt ⟨ps, rs.set rn (rnd.set mn m'), k⟩ rn mn = some m' := by
  have hlen : rn < rs.length := lt_length_of_get? h1
  unfold matchAt
  rw [show (rs.set rn (rnd.set mn m')).get? rn = some (rnd.set mn m') from
    List.get?_set_eq_of_lt _ hlen]
  simpa using List.get?_set_eq_of_lt m' h2

/-! ## Helper lemmas: apply/reverse cancellation -/

lemma applyScore_reverseScore (i j : Nat) (a b : Int) (ps : List Player) :
    applyScore i j a b (reverseScore i j a b ps) = ps := by
  rcases lt_trichotomy a b with h | h | h
  · simp only [applyScore, reverseScore, updatePlayer,
      if_neg (by omega : ¬ a > b), if_pos (by omega : b > a), List.map_map]
    apply map_id_of
    intro p
    rcases p with ⟨pid, pn, ppts, pw, phs, phc, po⟩
    by_cases hpi : pid = i
    · subst hpi
      by_cases hpj : pid = j
      · subst hpj
        simp [Function.comp] <;> omega
      · simp [Function.comp, hpj] <;> omega
    · by_cases hpj : pid = j
      · subst hpj
        simp [Function.comp, hpi] <;> omega
      · simp [Function.comp, hpi, hpj] <;> omega
  · simp only [applyScore, reverseScore, updatePlayer,
      if_neg (by omega : ¬ a > b), if_neg (by omega : ¬ b > a), List.map_map]
    apply map_id_of
    intro p
    rcases p with ⟨pid, pn, ppts, pw, phs, phc, po⟩
    by_cases hpi : pid = i
    · subst hpi
      by_cases hpj : pid = j
      · subst hpj
        simp [Function.comp] <;> omega
      · simp [Function.comp, hpj] <;> omega
    · by_cases hpj : pid = j
      · subst hpj
        simp [Function.comp, hpi] <;> omega
      · simp [Function.comp, hpi, hpj] <;> omega
  · simp only [applyScore, reverseScore, updatePlayer,
      if_pos (by omega : a > b), List.map_map]
    apply map_id_of
    intro p
    rcases p with ⟨pid, pn, ppts, pw, phs, phc, po⟩
    by_cases hpi : pid = i
    · subst hpi
      by_cases hpj : pid = j
      · subst hpj
        simp [Function.comp] <;> omega
      · simp [Function.comp, hpj] <;> omega
    · by_cases hpj : pid = j
      · subst hpj
        simp [Function.comp, hpi] <;> omega
      · simp [Function.comp, hpi, hpj] <;> omega

lemma reverseScore_applyScore (i j : Nat) (a b : Int) (ps : List Player) :
    reverseScore i j a b (applyScore i j a b ps) = ps := by
  rcases lt_trichotomy a b with h | h | h
  · simp only [applyScore, reverseScore, updatePlayer,
      if_neg (by omega : ¬ a > b), if_pos (by omega : b > a), List.map_map]
    apply map_id_of
    intro p
    rcases p with ⟨pid, pn, ppts, pw, phs, phc, po⟩
    by_cases hpi : pid = i
    · subst hpi
      by_cases hpj : pid = j
      · subst hpj
        simp [Function.comp] <;> omega
      · simp [Function.comp, hpj] <;> omega
    · by_cases hpj : pid = j
      · subst hpj
        simp [Function.comp, hpi] <;> omega
      · simp [Function.comp, hpi, hpj] <;> omega
  · simp only [applyScore, reverseScore, updatePlayer,
      if_neg (by omega : ¬ a > b), if_neg (by omega : ¬ b > a), List.map_map]
    apply map_id_of
    intro p
    rcases p with ⟨pid, pn, ppts, pw, phs, phc, po⟩
    by_cases hpi : pid = i
    · subst hpi
      by_cases hpj : pid = j
      · subst hpj
        simp [Function.comp] <;> omega
      · simp [Function.comp, hpj] <;> omega
    · by_cases hpj : pid = j
      · subst hpj
        simp [Function.comp, hpi] <;> omega
      · simp [Function.comp, hpi, hpj] <;> omega
  · simp only [applyScore, reverseScore, updatePlayer,
      if_pos (by omega : a > b), List.map_map]
    apply map_id_of
    intro p
    rcases p with ⟨pid, pn, ppts, pw, phs, phc, po⟩
    by_cases hpi : pid = i
    · subst hpi
      by_cases hpj : pid = j
      · subst hpj
        simp [Function.comp] <;> omega
      · simp [Function.comp, hpj] <;> omega
    · by_cases hpj : pid = j
      · subst hpj
        simp [Function.comp, hpi] <;> omega
      · simp [Function.comp, hpi, hpj] <;> omega

/-! ## Claim C1: idempotent correction -/

/-- C1: for every in-range non-bye match and all score pairs `(a, b)`,
calling `record_result` twice in succession with the same scores leaves
every competitor's aggregates identical to calling it once.  Proved here
without any restriction: the second call reverses exactly the deltas the
first call applied and then re-applies them. -/
theorem record_result_idempotent (t : SwissTournament) (rn mn : Nat) (a b : Int) :
    ((t.record_result rn mn a b).record_result rn mn a b).players =
      (t.record_result rn mn a b).players := by
  cases hr : t.rounds.get? rn with
  | none =>
    rw [record_result_no_round mn a b hr, record_result_no_round mn a b hr]
  | some rnd =>
    cases hm : rnd.get? mn with
    | none =>
      rw [record_result_no_match a b hr hm, record_result_no_match a b hr hm]
    | some m =>
      have hlen : rn < t.rounds.length := lt_length_of_get? hr
      have hlen2 : mn < rnd.length := lt_length_of_get? hm
      rcases m with ⟨p1, p2, res⟩
      cases p2 with
      | none =>
        rw [record_result_bye a b hr hm]
        have hr2 : (({ t with rounds := t.rounds.set rn (rnd.set mn ⟨p1, none, some (a, b)⟩) } : SwissTournament).rounds).get? rn =
            some (rnd.set mn ⟨p1, none, some (a, b)⟩) :=
          List.get?_set_eq_of_lt _ hlen
        have hm2 : (rnd.set mn (⟨p1, none, some (a, b)⟩ : Match)).get? mn =
            some ⟨p1, none, some (a, b)⟩ :=
          List.get?_set_eq_of_lt _ hlen2
        rw [record_result_bye a b hr2 hm2]
      | some j =>
        cases res with
        | none =>
          rw [record_result_fresh a b hr hm]
          have hr2 : (({ t with players := applyScore p1 j a b t.players, rounds := t.rounds.set rn (rnd.set mn ⟨p1, some j, some (a, b)⟩) } : SwissTournament).rounds).get? rn =
              some (rnd.set mn ⟨p1, some j, some (a, b)⟩) :=
            List.get?_set_eq_of_lt _ hlen
          have hm2 : (rnd.set mn (⟨p1, some j, some (a, b)⟩ : Match)).get? mn =
              some ⟨p1, some j, some (a, b)⟩ :=
            List.get?_set_eq_of_lt _ hlen2
          rw [record_result_over a b hr2 hm2]
          simp [reverseScore_applyScore]
        | some old =>
          rcases old with ⟨o1, o2⟩
          rw [record_result_over a b hr hm]
          have hr2 : (({ t with players := applyScore p1 j a b (reverseScore p1 j o1 o2 t.players), rounds := t.rounds.set rn (rnd.set mn ⟨p1, some j, some (a, b)⟩) } : SwissTournament).rounds).get? rn =
              some (rnd.set mn ⟨p1, some j, some (a, b)⟩) :=
            List.get?_set_eq_of_lt _ hlen
          have hm2 : (rnd.set mn (⟨p1, some j, some (a, b)⟩ : Match)).get? mn =
              some ⟨p1, some j, some (a, b)⟩ :=
            List.get?_set_eq_of_lt _ hlen2
          rw [record_result_over a b hr2 hm2]
          simp [reverseScore_applyScore]

/-! ## Claim C2: correction symmetry -/

/-- C2: on a match with no prior result, recording `(a, b)` and then
correcting to `(c, d)` leaves every competitor's aggregates identical to a
run in which `(c, d)` was the only result ever recorded on that match: the
correction reverses the exact deltas of the old score first. -/
theorem record_result_correction (t : SwissTournament) (rn mn : Nat) (m : Match)
    (a b c d : Int) (hm : matchAt t rn mn = some m) (hres : m.result = none) :
    ((t.record_result rn mn a b).record_result rn mn c d).players =
      (t.record_result rn mn c d).players := by
  unfold matchAt at hm
  cases hr : t.rounds.get? rn with
  | none => rw [hr] at hm; exact Option.noConfusion hm
  | some rnd =>
    rw [hr] at hm
    simp only [Option.some_bind] at hm
    have hlen : rn < t.rounds.length := lt_length_of_get? hr
    have hlen2 : mn < rnd.length := lt_length_of_get? hm
    rcases m with ⟨p1, p2, res⟩
    subst hres
    cases p2 with
    | none =>
      rw [record_result_bye a b hr hm, record_result_bye c d hr hm]
      have hr2 : (({ t with rounds := t.rounds.set rn (rnd.set mn ⟨p1, none, some (a, b)⟩) } : SwissTournament).rounds).get? rn =
          some (rnd.set mn ⟨p1, none, some (a, b)⟩) :=
        List.get?_set_eq_of_lt _ hlen
      have hm2 : (rnd.set mn (⟨p1, none, some (a, b)⟩ : Match)).get? mn =
          some ⟨p1, none, some (a, b)⟩ :=
        List.get?_set_eq_of_lt _ hlen2
      rw [record_result_bye c d hr2 hm2]
    | some j =>
      rw [record_result_fresh a b hr hm, record_result_fresh c d hr hm]
      have hr2 : (({ t with players := applyScore p1 j a b t.players, rounds := t.rounds.set rn (rnd.set mn ⟨p1, some j, some (a, b)⟩) } : SwissTournament).rounds).get? rn =
          some (rnd.set mn ⟨p1, some j, some (a, b)⟩) :=
        List.get?_set_eq_of_lt _ hlen
      have hm2 : (rnd.set mn (⟨p1, some j, some (a, b)⟩ : Match)).get? mn =
          some ⟨p1, some j, some (a, b)⟩ :=
        List.get?_set_eq_of_lt _ hlen2
      rw [record_result_over c d hr2 hm2]
      simp [reverseScore_applyScore]

/-- Witness for C2 at a concrete input: the tournament `exT2` has the
unscored non-bye match `0 vs 1` at round 0, match 0; recording `7–3` and
then correcting to `4–7` equals recording only `4–7`. -/
theorem record_result_correction_witness :
    ((exT2.record_result 0 0 7 3).record_result 0 0 4 7).players =
      (exT2.record_result 0 0 4 7).players :=
  record_result_correction exT2 0 0 ⟨0, some 1, none⟩ 7 3 4 7 (by decide) (by decide)

/-! ## Claim C6: bye matches and aggregates -/

/-- C6 (amended): recording a result on a bye match (`player2` absent)
never changes any competitor's aggregates — no bye point is awarded on
first recording, and corrections are aggregate no-ops as well; only the
match's stored result changes. -/
theorem record_result_bye_no_award (t : SwissTournament) (rn mn : Nat)
    (p1 : Nat) (res : Option (Int × Int)) (a b : Int)
    (hm : matchAt t rn mn = some ⟨p1, none, res⟩) :
    (t.record_result rn mn a b).players = t.players := by
  unfold matchAt at hm
  cases hr : t.rounds.get? rn with
  | none => rw [hr] at hm; exact Option.noConfusion hm
  | some rnd =>
    rw [hr] at hm
    simp only [Option.some_bind] at hm
    rw [record_result_bye a b hr hm]

/-- Witness for C6's amended theorem: in `exT3`, round 0, match 1 is the
bye of player 2; recording `7–0` on it changes no aggregates. -/
theorem record_result_bye_no_award_witness :
    (exT3.record_result 0 1 7 0).players = exT3.players :=
  record_result_bye_no_award exT3 0 1 2 none 7 0 (by decide)

/-- Counterexample to C6 as stated: the claim predicts that the first
recording on the bye match of `exT3` (round 0, match 1, bye for player 2)
increases player 2's points by the bye award `+1`; in fact no points
change at all. -/
theorem record_result_bye_award_counterexample :
    matchAt exT3 0 1 = some ⟨2, none, none⟩ ∧
    (exT3.record_result 0 1 7 0).players.map Player.points ≠
      exT3.players.map fun p => if p.id = 2 then p.points + 1 else p.points := by
  decide

/-! ## Claim C7: negative scores -/

/-- C7 (amended): `record_result` performs no score validation.  For any
in-range match and any scores — negative included — the new pair is stored
as the match's result exactly as for non-negative scores; there is no
`InvalidScore` failure and no rollback. -/
theorem record_result_no_validation (t : SwissTournament) (rn mn : Nat)
    (m : Match) (a b : Int) (hm : matchAt t rn mn = some m) :
    matchAt (t.record_result rn mn a b) rn mn = some { m with result := some (a, b) } := by
  unfold matchAt at hm
  cases hr : t.rounds.get? rn with
  | none => rw [hr] at hm; exact Option.noConfusion hm
  | some rnd =>
    rw [hr] at hm
    simp only [Option.some_bind] at hm
    have hlen2 : mn < rnd.length := lt_length_of_get? hm
    rcases m with ⟨p1, p2, res⟩
    cases p2 with
    | none =>
      rw [record_result_bye a b hr hm]
      exact matchAt_set_set _ _ _ hr hlen2
    | some j =>
      cases res with
      | none =>
        rw [record_result_fresh a b hr hm]
        exact matchAt_set_set _ _ _ hr hlen2
      | some old =>
        rcases old with ⟨o1, o2⟩
        rw [record_result_over a b hr hm]
        exact matchAt_set_set _ _ _ hr hlen2

/-- Witness for C7's amended theorem: recording the negative score `-1`
against `0` on the non-bye match of `exT2` stores `(-1, 0)` as the result
rather than failing. -/
theorem record_result_no_validation_witness :
    matchAt (exT2.record_result 0 0 (-1) 0) 0 0 = some ⟨0, some 1, some (-1, 0)⟩ :=
  record_result_no_validation exT2 0 0 ⟨0, some 1, none⟩ (-1) 0 (by decide)

/-- Counterexample to C7 as stated: the claim says a negative score fails
with `InvalidScore` and leaves every aggregate unchanged; recording
`(-1, 0)` on the match `0 vs 1` of `exT2` does mutate the aggregates. -/
theorem record_result_negative_counterexample :
    matchAt exT2 0 0 = some ⟨0, some 1, none⟩ ∧
    (exT2.record_result 0 0 (-1) 0).players ≠ exT2.players := by
  decide

/-! ## Claim C8: round generation schedule -/

lemma generate_rounds_length (t : SwissTournament) (rn : Nat) (avail : List Player) :
    (t.generate_round_pairings rn avail).rounds.length = max t.rounds.length (rn + 1) := by
  unfold SwissTournament.generate_round_pairings padTo
  simp only [List.length_set, List.length_append, List.length_replicate]
  omega

/-- C8 (amended): the constructor generates all requested rounds upfront —
after `SwissTournament(names, n)` the tournament already holds exactly `n`
generated rounds, with no completion gating of any kind (no
`RoundNotComplete` error exists). -/
lemma foldgen_length (shuffled : List Player) (n : Nat) (t0 : SwissTournament)
    (h : t0.rounds = []) :
    ((List.range n).foldl
      (fun t r => t.generate_round_pairings r (if r = 0 then shuffled else t.get_standings))
      t0).rounds.length = n := by
  induction n with
  | zero => simpa using congrArg List.length h
  | succ k ih =>
    rw [List.range_succ, List.foldl_append, List.foldl_cons, List.foldl_nil]
    rw [generate_rounds_length, ih]
    omega

theorem create_generates_all_rounds (names : List String) (n : Nat)
    (shuffled : List Player) :
    (SwissTournament.create names n shuffled).rounds.length = n := by
  unfold SwissTournament.create
  exact foldgen_length shuffled n _ rfl

/-- Counterexample to C8 as stated: immediately after setup with 4 names
and `rounds_target = 2`, the tournament holds two generated rounds, none
of whose matches has a result — round 1 was generated without waiting for
round 0 to complete, and more than one round exists after setup. -/
theorem round_gating_counterexample :
    exT4.rounds =
      [[⟨0, some 1, none⟩, ⟨2, some 3, none⟩],
       [⟨0, some 2, none⟩, ⟨1, some 3, none⟩]] ∧
    ¬ exT4.rounds.length ≤ 1 := by
  decide

/-! ## Claims C4 and C5: fallback pairing and bye assignment -/

lemma getD_set_padTo (rs : List (List Match)) (rn : Nat) (x : List Match) :
    ((padTo rs (rn + 1)).set rn x).getD rn [] = x := by
  have h : rn < (padTo rs (rn + 1)).length := by
    unfold padTo
    rw [List.length_append, List.length_replicate]
    omega
  rw [List.getD_eq_get?, List.get?_set_eq_of_lt _ h]
  rfl

/-- C4 (amended): when the first unassigned competitor `p` has no
unassigned opponent outside its opponents-played set, the engine does
*not* force a pairing: `p` is left unassigned by the scan.  For a
2-competitor seeding order in which the two have already played, the
generated round consists of a single bye for the first competitor, and the
second competitor appears in no match of the round. -/
theorem generate_no_forced_pairing (t : SwissTournament) (rn : Nat) (p q : Player)
    (hopp : q.id ∈ currentOpps t.players p) (hne : q.id ≠ p.id) :
    (t.generate_round_pairings rn [p, q]).rounds.getD rn [] = [⟨p.id, none, none⟩] ∧
    q.id ∉ roundIds ((t.generate_round_pairings rn [p, q]).rounds.getD rn []) := by
  have hloop : pairLoop t.players [] [] [p, q] = (t.players, [], []) := by
    simp [pairLoop, findOpponent, hopp]
  have hround : (t.generate_round_pairings rn [p, q]).rounds.getD rn [] =
      [⟨p.id, none, none⟩] := by
    unfold SwissTournament.generate_round_pairings
    rw [hloop]
    simp
    simpa using getD_set_padTo t.rounds rn [⟨p.id, none, none⟩]
  refine ⟨hround, ?_⟩
  rw [hround]
  simp [roundIds, matchIds, hne]

/-- C5 (amended): the bye is assigned with no fairness rule at all — when
competitors remain unassigned after the greedy scan, a bye match is
appended for the *first* unassigned competitor in the round's seeding
order, regardless of how many byes anyone has had. -/
theorem generate_bye_first_remaining (t : SwissTournament) (rn : Nat)
    (avail : List Player) (b : Player)
    (hb : (avail.filter fun p => p.id ∉ (pairLoop t.players [] [] avail).2.1).head? =
      some b) :
    (t.generate_round_pairings rn avail).rounds.getD rn [] =
      (pairLoop t.players [] [] avail).2.2 ++ [⟨b.id, none, none⟩] := by
  unfold SwissTournament.generate_round_pairings
  cases hrem : avail.filter fun p => p.id ∉ (pairLoop t.players [] [] avail).2.1 with
  | nil => rw [hrem] at hb; exact Option.noConfusion hb
  | cons b' rest =>
    rw [hrem] at hb
    rw [List.head?_cons] at hb
    cases hb
    dsimp only
    rw [hrem]
    simpa using getD_set_padTo t.rounds rn _

/-- Witness for C5's amended theorem: in a fresh 3-player tournament the
scan pairs 0 with 1 and the remaining player 2 — first unassigned in
seeding order — receives the bye. -/
theorem generate_bye_first_remaining_witness :
    ((SwissTournament.mk (initPlayers ["A", "B", "C"]) [] 1).generate_round_pairings 0
        (initPlayers ["A", "B", "C"])).rounds.getD 0 [] =
      (pairLoop (initPlayers ["A", "B", "C"]) [] [] (initPlayers ["A", "B", "C"])).2.2 ++
        [⟨2, none, none⟩] :=
  generate_bye_first_remaining (SwissTournament.mk (initPlayers ["A", "B", "C"]) [] 1) 0
    (initPlayers ["A", "B", "C"])
    ⟨2, "C", 0, 0, 0, 0, []⟩ (by decide)

/-- Counterexample to C5 as stated: in `exT5` (five players, two rounds),
player 4 receives the bye in round 0 *and again* in round 1 even though
players 0–3 have had no bye at all — the bye is not rotated to a
fewest-byes competitor. -/
theorem bye_rotation_counterexample :
    exT5.rounds =
      [[⟨0, some 1, none⟩, ⟨2, some 3, none⟩, ⟨4, none, none⟩],
       [⟨0, some 2, none⟩, ⟨1, some 3, none⟩, ⟨4, none, none⟩]] ∧
    (exT5.rounds.getD 0 []).get? 2 = some ⟨4, none, none⟩ ∧
    (exT5.rounds.getD 1 []).get? 2 = some ⟨4, none, none⟩ := by
  decide

/-- Counterexample to C4 as stated: with roster `["A","B"]` and
`rounds_target = 2`, round 1 does not re-pair the two competitors; it is a
single bye for competitor 0 and competitor 1 is left out of the round. -/
theorem forced_pairing_counterexample :
    exT2b.rounds = [[⟨0, some 1, none⟩], [⟨0, none, none⟩]] ∧
    1 ∉ roundIds (exT2b.rounds.getD 1 []) := by
  decide

/-- Witness for C4's amended theorem, on the state reached by `exT2b`
after its opening round: the two players have played, so generating a
round over them produces only the bye for the first. -/
theorem generate_no_forced_pairing_witness :
    (exT2.generate_round_pairings 1
        [⟨0, "A", 0, 0, 0, 0, [1]⟩, ⟨1, "B", 0, 0, 0, 0, [0]⟩]).rounds.getD 1 [] =
      [⟨0, none, none⟩] ∧
    1 ∉ roundIds ((exT2.generate_round_pairings 1
        [⟨0, "A", 0, 0, 0, 0, [1]⟩, ⟨1, "B", 0, 0, 0, 0, [0]⟩]).rounds.getD 1 []) :=
  generate_no_forced_pairing exT2 1 ⟨0, "A", 0, 0, 0, 0, [1]⟩ ⟨1, "B", 0, 0, 0, 0, [0]⟩
    (by decide) (by decide)

/-! ## Claim C3: standings ordering -/

lemma keyGt_total (a b : Int × Int × Int) : keyGt a b ∨ a = b ∨ keyGt b a := by
  rcases a with ⟨a1, a2, a3⟩
  rcases b with ⟨b1, b2, b3⟩
  simp only [keyGt, Prod.mk.injEq]
  omega

lemma keyGt_trans {a b c : Int × Int × Int} (h1 : keyGt a b) (h2 : keyGt b c) :
    keyGt a c := by
  rcases a with ⟨a1, a2, a3⟩
  rcases b with ⟨b1, b2, b3⟩
  rcases c with ⟨c1, c2, c3⟩
  simp only [keyGt] at *
  omega

lemma standGt_trans {p q r : Player} (h1 : standGt p q) (h2 : standGt q r) :
    standGt p r := by
  rcases h1 with h1 | ⟨h1, h1'⟩ <;> rcases h2 with h2 | ⟨h2, h2'⟩
  · exact Or.inl (keyGt_trans h1 h2)
  · exact Or.inl (h2 ▸ h1)
  · exact Or.inl (h1 ▸ h2)
  · exact Or.inr ⟨h1.trans h2, h1'.trans h2'⟩

lemma insertRev_perm (p : Player) (l : List Player) :
    (insertRev p l).Perm (p :: l) := by
  induction l with
  | nil => exact List.Perm.refl _
  | cons q qs ih =>
    unfold insertRev
    split
    · exact (ih.cons q).trans (List.Perm.swap p q qs)
    · exact List.Perm.refl _

lemma standings_perm (ps : List Player) :
    (ps.foldr insertRev []).Perm ps := by
  induction ps with
  | nil => exact List.Perm.refl _
  | cons p ps ih =>
    simp only [List.foldr_cons]
    exact (insertRev_perm p _).trans (ih.cons p)

lemma insertRev_pairwise (p : Player) (l : List Player)
    (hl : l.Pairwise standGt) (hid : ∀ q ∈ l, p.id < q.id) :
    (insertRev p l).Pairwise standGt := by
  induction l with
  | nil => simp [insertRev]
  | cons q qs ih =>
    rw [List.pairwise_cons] at hl
    obtain ⟨hq, hqs⟩ := hl
    unfold insertRev
    split
    case isTrue hgt =>
      rw [List.pairwise_cons]
      refine ⟨?_, ih hqs fun r hr => hid r (List.mem_cons_of_mem q hr)⟩
      intro x hx
      rcases List.mem_cons.mp ((insertRev_perm p qs).mem_iff.mp hx) with rfl | hx
      · exact Or.inl hgt
      · exact hq x hx
    case isFalse hngt =>
      have hpq : standGt p q := by
        rcases keyGt_total (sortKey p) (sortKey q) with h | h | h
        · exact Or.inl h
        · exact Or.inr ⟨h, hid q (List.mem_cons_self q qs)⟩
        · exact absurd h hngt
      rw [List.pairwise_cons]
      refine ⟨?_, List.pairwise_cons.mpr ⟨hq, hqs⟩⟩
      intro x hx
      rcases List.mem_cons.mp hx with rfl | hx
      · exact hpq
      · exact standGt_trans hpq (hq x hx)

lemma standings_sorted (ps : List Player)
    (h : ps.Pairwise fun p q => p.id < q.id) :
    (ps.foldr insertRev []).Pairwise standGt := by
  induction ps with
  | nil => simp
  | cons p ps ih =>
    rw [List.pairwise_cons] at h
    obtain ⟨hp, hps⟩ := h
    simp only [List.foldr_cons]
    refine insertRev_pairwise p _ (ih hps) ?_
    intro q hq
    exact hp q ((standings_perm ps).mem_iff.mp hq)

lemma standGt_total_of_ne {p q : Player} (h : p.id ≠ q.id) :
    standGt p q ∨ standGt q p := by
  rcases keyGt_total (sortKey p) (sortKey q) with hk | hk | hk
  · exact Or.inl (Or.inl hk)
  · rcases Nat.lt_or_ge p.id q.id with hid | hid
    · exact Or.inl (Or.inr ⟨hk, hid⟩)
    · exact Or.inr (Or.inr ⟨hk.symm, by omega⟩)
  · exact Or.inr (Or.inl hk)

/-- C3: on every roster whose list order follows ascending ids (the order
`create_roster` establishes — ids are positions — and which no operation
disturbs), `get_standings` returns exactly the roster sorted strictly
descending by `(points, hoops_scored − hoops_conceded, hoops_scored, −id)`:
it is a permutation of the roster, pairwise strictly ordered by `standGt`
(so lower id wins all remaining ties and no two distinct competitors
compare equal), the order is total on distinct ids, and a second call
returns the same sequence. -/
theorem get_standings_spec (t : SwissTournament)
    (hasc : t.players.Pairwise fun p q => p.id < q.id) :
    t.get_standings.Perm t.players ∧
    t.get_standings.Pairwise standGt ∧
    (∀ p ∈ t.players, ∀ q ∈ t.players, p.id ≠ q.id → standGt p q ∨ standGt q p) ∧
    t.get_standings = t.get_standings :=
  ⟨standings_perm _, standings_sorted _ hasc,
    fun p _ q _ h => standGt_total_of_ne h, rfl⟩

/-- Witness for C3 at a concrete roster (the three-player tournament
`exT3`, whose roster is in ascending id order). -/
theorem get_standings_spec_witness :
    exT3.get_standings.Perm exT3.players ∧
    exT3.get_standings.Pairwise standGt ∧
    (∀ p ∈ exT3.players, ∀ q ∈ exT3.players, p.id ≠ q.id →
      standGt p q ∨ standGt q p) ∧
    exT3.get_standings = exT3.get_standings :=
  get_standings_spec exT3 (by decide)

/-! ## Claim C9: no double-booking within a round -/

lemma mem_listInsert_iff {x i : Nat} {l : List Nat} :
    x ∈ listInsert i l ↔ x = i ∨ x ∈ l := by
  unfold listInsert
  split
  case isTrue h =>
    constructor
    · exact Or.inr
    · rintro (rfl | hx)
      · exact h
      · exact hx
  case isFalse h => simp [List.mem_cons]

lemma roundIds_cons (m : Match) (ms : List Match) :
    roundIds (m :: ms) = matchIds m ++ roundIds ms := rfl

lemma roundIds_append (a b : List Match) :
    roundIds (a ++ b) = roundIds a ++ roundIds b := by
  induction a with
  | nil => rfl
  | cons m ms ih =>
    rw [List.cons_append, roundIds_cons, roundIds_cons, ih, List.append_assoc]

lemma findOpponent_spec {opps used : List Nat} :
    ∀ {l : List Player} {p2 : Player},
    findOpponent opps used l = some p2 → p2 ∈ l ∧ p2.id ∉ used ∧ p2.id ∉ opps := by
  intro l
  induction l with
  | nil => intro p2 h; exact Option.noConfusion h
  | cons q qs ih =>
    intro p2 h
    unfold findOpponent at h
    split at h
    case isTrue hc =>
      cases h
      exact ⟨List.mem_cons_self q qs, hc.1, hc.2⟩
    case isFalse hc =>
      obtain ⟨h1, h2, h3⟩ := ih h
      exact ⟨List.mem_cons_of_mem q h1, h2, h3⟩

lemma pairLoop_ids :
    ∀ (avail roster : List Player) (used : List Nat) (acc : List Match),
    (roundIds acc).Nodup → (∀ x ∈ roundIds acc, x ∈ used) →
    (avail.map Player.id).Nodup →
    (roundIds (pairLoop roster used acc avail).2.2).Nodup ∧
    (∀ x ∈ roundIds (pairLoop roster used acc avail).2.2,
      x ∈ (pairLoop roster used acc avail).2.1) := by
  intro avail
  induction avail with
  | nil =>
    intro roster used acc h1 h2 _
    exact ⟨h1, h2⟩
  | cons p1 rest ih =>
    intro roster used acc h1 h2 h3
    rw [List.map_cons, List.nodup_cons] at h3
    obtain ⟨hp1rest, hrest⟩ := h3
    unfold pairLoop
    split
    case isTrue => exact ih roster used acc h1 h2 hrest
    case isFalse hp1 =>
      cases hfo : findOpponent (currentOpps roster p1) used rest with
      | none => exact ih roster used acc h1 h2 hrest
      | some p2 =>
        obtain ⟨hmem, hnu, -⟩ := findOpponent_spec hfo
        have hne : p1.id ≠ p2.id := by
          intro he
          exact hp1rest (he ▸ List.mem_map_of_mem Player.id hmem)
        refine ih _ _ _ ?_ ?_ hrest
        · rw [roundIds_append]
          refine List.Nodup.append h1 ?_ ?_
          · simp [roundIds, matchIds, hne]
          · intro x hx hx'
            have hxu : x ∈ used := h2 x hx
            rw [show roundIds [({ player1 := p1.id, player2 := some p2.id, result := none } : Match)] = [p1.id, p2.id] from rfl] at hx'
            rcases List.mem_cons.mp hx' with rfl | hx'
            · exact hp1 hxu
            · cases List.mem_singleton.mp hx'
              exact hnu hxu
        · intro x hx
          rw [roundIds_append] at hx
          rcases List.mem_append.mp hx with hx | hx
          · exact mem_listInsert_iff.mpr (Or.inr (mem_listInsert_iff.mpr (Or.inr (h2 x hx))))
          · rw [show roundIds [({ player1 := p1.id, player2 := some p2.id, result := none } : Match)] = [p1.id, p2.id] from rfl] at hx
            rcases List.mem_cons.mp hx with rfl | hx
            · exact mem_listInsert_iff.mpr (Or.inr (mem_listInsert_iff.mpr (Or.inl rfl)))
            · cases List.mem_singleton.mp hx
              exact mem_listInsert_iff.mpr (Or.inl rfl)

/-- C9: every round produced by one invocation of the pairing engine, over
a seeding order with pairwise-distinct ids, books each competitor id at
most once across all of its matches (pairing slots and bye slot). -/
theorem generate_no_double_booking (t : SwissTournament) (rn : Nat)
    (avail : List Player) (h : (avail.map Player.id).Nodup) :
    (roundIds ((t.generate_round_pairings rn avail).rounds.getD rn [])).Nodup := by
  obtain ⟨hnd, hsub⟩ :=
    pairLoop_ids avail t.players [] [] (by simp [roundIds]) (by simp [roundIds]) h
  unfold SwissTournament.generate_round_pairings
  dsimp only
  cases hrem : avail.filter fun p => p.id ∉ (pairLoop t.players [] [] avail).2.1 with
  | nil =>
    dsimp only
    rw [getD_set_padTo]
    exact hnd
  | cons b rest =>
    dsimp only
    rw [getD_set_padTo]
    rw [roundIds_append]
    refine List.Nodup.append hnd (by simp [roundIds, matchIds]) ?_
    intro x hx hx'
    have hb : b ∈ avail.filter fun p => p.id ∉ (pairLoop t.players [] [] avail).2.1 :=
      hrem ▸ List.mem_cons_self b rest
    have hbu : b.id ∉ (pairLoop t.players [] [] avail).2.1 :=
      of_decide_eq_true (List.mem_filter.mp hb).2
    rw [show roundIds [({ player1 := b.id, player2 := none, result := none } : Match)] = [b.id] from rfl] at hx'
    cases List.mem_singleton.mp hx'
    exact hbu (hsub _ hx)

/-- Witness for C9: a fresh three-player roster has pairwise-distinct ids,
and the round generated over it books no id twice. -/
theorem generate_no_double_booking_witness :
    (roundIds
      (((SwissTournament.mk (initPlayers ["A", "B", "C"]) [] 1).generate_round_pairings 0
        (initPlayers ["A", "B", "C"])).rounds.getD 0 [])).Nodup :=
  generate_no_double_booking (SwissTournament.mk (initPlayers ["A", "B", "C"]) [] 1) 0
    (initPlayers ["A", "B", "C"]) (by decide)

/-! ## Claim C10: the opponents-played relation in reachable states -/

lemma map_congr_fn {α β : Type} (f g : α → β) (h : ∀ a, f a = g a) (l : List α) :
    l.map f = l.map g := by
  induction l <;> simp_all

lemma updatePlayer_idOpps {f : Player → Player}
    (hf : ∀ p, (f p).id = p.id ∧ (f p).opponents = p.opponents)
    (ps : List Player) (i : Nat) :
    (updatePlayer ps i f).map idOpps = ps.map idOpps := by
  unfold updatePlayer
  rw [List.map_map]
  apply map_congr_fn
  intro p
  by_cases hp : p.id = i
  · simp only [Function.comp, if_pos hp, idOpps, (hf p).1, (hf p).2]
  · simp only [Function.comp, if_neg hp]

lemma applyScore_idOpps (i j : Nat) (a b : Int) (ps : List Player) :
    (applyScore i j a b ps).map idOpps = ps.map idOpps := by
  unfold applyScore
  by_cases h1 : a > b
  · simp only [if_pos h1]
    rw [updatePlayer_idOpps, updatePlayer_idOpps, updatePlayer_idOpps] <;>
      exact fun p => ⟨rfl, rfl⟩
  · by_cases h2 : b > a
    · simp only [if_neg h1, if_pos h2]
      rw [updatePlayer_idOpps, updatePlayer_idOpps, updatePlayer_idOpps] <;>
        exact fun p => ⟨rfl, rfl⟩
    · simp only [if_neg h1, if_neg h2]
      rw [updatePlayer_idOpps, updatePlayer_idOpps] <;>
        exact fun p => ⟨rfl, rfl⟩

lemma reverseScore_idOpps (i j : Nat) (a b : Int) (ps : List Player) :
    (reverseScore i j a b ps).map idOpps = ps.map idOpps := by
  unfold reverseScore
  by_cases h1 : a > b
  · simp only [if_pos h1]
    rw [updatePlayer_idOpps, updatePlayer_idOpps, updatePlayer_idOpps] <;>
      exact fun p => ⟨rfl, rfl⟩
  · by_cases h2 : b > a
    · simp only [if_neg h1, if_pos h2]
      rw [updatePlayer_idOpps, updatePlayer_idOpps, updatePlayer_idOpps] <;>
        exact fun p => ⟨rfl, rfl⟩
    · simp only [if_neg h1, if_neg h2]
      rw [updatePlayer_idOpps, updatePlayer_idOpps] <;>
        exact fun p => ⟨rfl, rfl⟩

lemma record_result_idOpps (t : SwissTournament) (rn mn : Nat) (a b : Int) :
    (t.record_result rn mn a b).players.map idOpps = t.players.map idOpps := by
  cases hr : t.rounds.get? rn with
  | none => rw [record_result_no_round mn a b hr]
  | some rnd =>
    cases hm : rnd.get? mn with
    | none => rw [record_result_no_match a b hr hm]
    | some m =>
      rcases m with ⟨p1, p2, res⟩
      cases p2 with
      | none => rw [record_result_bye a b hr hm]
      | some j =>
        cases res with
        | none =>
          rw [record_result_fresh a b hr hm]
          exact applyScore_idOpps p1 j a b t.players
        | some old =>
          rcases old with ⟨o1, o2⟩
          rw [record_result_over a b hr hm]
          rw [show (({ t with players := applyScore p1 j a b (reverseScore p1 j o1 o2 t.players), rounds := t.rounds.set rn (rnd.set mn ⟨p1, some j, some (a, b)⟩) } : SwissTournament)).players = applyScore p1 j a b (reverseScore p1 j o1 o2 t.players) from rfl]
          rw [applyScore_idOpps, reverseScore_idOpps]

lemma wf_of_idOpps {ps ps' : List Player} (h : ps'.map idOpps = ps.map idOpps)
    (hwf : PlayersWF ps) : PlayersWF ps' := by
  obtain ⟨hnd, hsym, hirr⟩ := hwf
  have hid : ps'.map Player.id = ps.map Player.id := by
    have h' := congrArg (List.map Prod.fst) h
    rw [List.map_map, List.map_map] at h'
    exact h'
  refine ⟨?_, ?_, ?_⟩
  · rw [hid]; exact hnd
  · intro p hp q hq hin
    obtain ⟨p0, hp0, hp0e⟩ :=
      List.mem_map.mp (h ▸ List.mem_map_of_mem idOpps hp)
    obtain ⟨q0, hq0, hq0e⟩ :=
      List.mem_map.mp (h ▸ List.mem_map_of_mem idOpps hq)
    have hpid : p0.id = p.id := congrArg Prod.fst hp0e
    have hpop : p0.opponents = p.opponents := congrArg Prod.snd hp0e
    have hqid : q0.id = q.id := congrArg Prod.fst hq0e
    have hqop : q0.opponents = q.opponents := congrArg Prod.snd hq0e
    rw [← hpid, ← hqop]
    exact hsym p0 hp0 q0 hq0 (by rw [hqid, hpop]; exact hin)
  · intro p hp
    obtain ⟨p0, hp0, hp0e⟩ :=
      List.mem_map.mp (h ▸ List.mem_map_of_mem idOpps hp)
    have hpid : p0.id = p.id := congrArg Prod.fst hp0e
    have hpop : p0.opponents = p.opponents := congrArg Prod.snd hp0e
    rw [← hpid, ← hpop]
    exact hirr p0 hp0

lemma pairUpdate_eq_map (ps : List Player) (i j : Nat) :
    updatePlayer (updatePlayer ps i fun q => q.add_opponent j) j
      (fun q => q.add_opponent i) = ps.map (pairFn i j) := by
  unfold updatePlayer pairFn
  rw [List.map_map]

lemma add_opponent_id (p : Player) (x : Nat) : (p.add_opponent x).id = p.id := rfl

lemma pairFn_id (i j : Nat) (p : Player) : (pairFn i j p).id = p.id := by
  unfold pairFn
  simp only [Function.comp]
  split <;> split <;> rfl

lemma pairFn_opps (i j : Nat) (hij : i ≠ j) (p : Player) (x : Nat) :
    x ∈ (pairFn i j p).opponents ↔
      x ∈ p.opponents ∨ (p.id = i ∧ x = j) ∨ (p.id = j ∧ x = i) := by
  unfold pairFn
  simp only [Function.comp]
  by_cases h1 : p.id = i
  · rw [if_pos h1]
    have hnj : ¬ (p.add_opponent j).id = j := by
      rw [add_opponent_id, h1]
      exact fun he => hij he
    rw [if_neg hnj]
    unfold Player.add_opponent
    simp only [mem_listInsert_iff]
    constructor
    · rintro (rfl | hx)
      · exact Or.inr (Or.inl ⟨h1, rfl⟩)
      · exact Or.inl hx
    · rintro (hx | ⟨-, rfl⟩ | ⟨hj, -⟩)
      · exact Or.inr hx
      · exact Or.inl rfl
      · exact absurd (h1 ▸ hj : i = j) hij
  · rw [if_neg h1]
    by_cases h2 : p.id = j
    · rw [if_pos h2]
      unfold Player.add_opponent
      simp only [mem_listInsert_iff]
      constructor
      · rintro (rfl | hx)
        · exact Or.inr (Or.inr ⟨h2, rfl⟩)
        · exact Or.inl hx
      · rintro (hx | ⟨hi, -⟩ | ⟨-, rfl⟩)
        · exact Or.inr hx
        · exact absurd hi h1
        · exact Or.inl rfl
    · rw [if_neg h2]
      constructor
      · exact Or.inl
      · rintro (hx | ⟨hi, -⟩ | ⟨hj, -⟩)
        · exact hx
        · exact absurd hi h1
        · exact absurd hj h2

lemma pairUpdate_wf {ps : List Player} (i j : Nat) (hij : i ≠ j)
    (hwf : PlayersWF ps) :
    PlayersWF (updatePlayer (updatePlayer ps i fun q => q.add_opponent j) j
      fun q => q.add_opponent i) := by
  obtain ⟨hnd, hsym, hirr⟩ := hwf
  rw [pairUpdate_eq_map]
  refine ⟨?_, ?_, ?_⟩
  · rw [List.map_map,
      map_congr_fn (Player.id ∘ pairFn i j) Player.id (fun p => pairFn_id i j p)]
    exact hnd
  · intro p' hp' q' hq' hin
    obtain ⟨p, hp, rfl⟩ := List.mem_map.mp hp'
    obtain ⟨q, hq, rfl⟩ := List.mem_map.mp hq'
    rw [pairFn_id] at hin
    rw [pairFn_id]
    rcases (pairFn_opps i j hij p q.id).mp hin with hold | ⟨hpi, hqj⟩ | ⟨hpj, hqi⟩
    · exact (pairFn_opps i j hij q p.id).mpr (Or.inl (hsym p hp q hq hold))
    · exact (pairFn_opps i j hij q p.id).mpr (Or.inr (Or.inr ⟨hqj, hpi⟩))
    · exact (pairFn_opps i j hij q p.id).mpr (Or.inr (Or.inl ⟨hqi, hpj⟩))
  · intro p' hp'
    obtain ⟨p, hp, rfl⟩ := List.mem_map.mp hp'
    rw [pairFn_id]
    intro hin
    rcases (pairFn_opps i j hij p p.id).mp hin with hold | ⟨hpi, hpj⟩ | ⟨hpj, hpi⟩
    · exact hirr p hp hold
    · exact hij (hpi ▸ hpj)
    · exact hij (hpi ▸ hpj)

lemma pairLoop_wf :
    ∀ (avail roster : List Player) (used : List Nat) (acc : List Match),
    PlayersWF roster → (avail.map Player.id).Nodup →
    PlayersWF (pairLoop roster used acc avail).1 := by
  intro avail
  induction avail with
  | nil => intro roster used acc hwf _; exact hwf
  | cons p1 rest ih =>
    intro roster used acc hwf h3
    rw [List.map_cons, List.nodup_cons] at h3
    obtain ⟨hp1rest, hrest⟩ := h3
    unfold pairLoop
    split
    case isTrue => exact ih roster used acc hwf hrest
    case isFalse hp1 =>
      cases hfo : findOpponent (currentOpps roster p1) used rest with
      | none => exact ih roster used acc hwf hrest
      | some p2 =>
        obtain ⟨hmem, -, -⟩ := findOpponent_spec hfo
        have hne : p1.id ≠ p2.id := by
          intro he
          exact hp1rest (he ▸ List.mem_map_of_mem Player.id hmem)
        exact ih _ _ _ (pairUpdate_wf p1.id p2.id hne hwf) hrest

lemma generate_wf (t : SwissTournament) (rn : Nat) (avail : List Player)
    (hwf : PlayersWF t.players) (hnd : (avail.map Player.id).Nodup) :
    PlayersWF (t.generate_round_pairings rn avail).players := by
  have h : (t.generate_round_pairings rn avail).players =
      (pairLoop t.players [] [] avail).1 := rfl
  rw [h]
  exact pairLoop_wf avail t.players [] [] hwf hnd

lemma initPlayers_map_id (names : List String) :
    (initPlayers names).map Player.id = List.range names.length := by
  unfold initPlayers
  rw [List.map_map]
  rw [show (Player.id ∘ fun en : Nat × String =>
      ({ id := en.1, name := en.2, points := 0, wins := 0, hoops_scored := 0,
         hoops_conceded := 0, opponents := [] } : Player)) = Prod.fst from
    funext fun en => rfl]
  exact List.enum_map_fst names

lemma initPlayers_opponents {p : Player} (names : List String)
    (hp : p ∈ initPlayers names) : p.opponents = [] := by
  obtain ⟨en, -, rfl⟩ := List.mem_map.mp hp
  rfl

lemma initPlayers_wf (names : List String) : PlayersWF (initPlayers names) := by
  refine ⟨?_, ?_, ?_⟩
  · rw [initPlayers_map_id]
    exact List.nodup_range _
  · intro p hp q hq hin
    rw [initPlayers_opponents names hp] at hin
    exact absurd hin (List.not_mem_nil _)
  · intro p hp hin
    rw [initPlayers_opponents names hp] at hin
    exact absurd hin (List.not_mem_nil _)

lemma get_standings_perm (t : SwissTournament) :
    t.get_standings.Perm t.players := standings_perm t.players

lemma foldgen_wf (shuffled : List Player) (n : Nat) (t0 : SwissTournament)
    (h0 : PlayersWF t0.players) (hsh : shuffled.Perm t0.players) :
    PlayersWF (((List.range n).foldl
      (fun t r => t.generate_round_pairings r (if r = 0 then shuffled else t.get_standings))
      t0).players) := by
  induction n with
  | zero => exact h0
  | succ k ih =>
    rw [List.range_succ, List.foldl_append, List.foldl_cons, List.foldl_nil]
    apply generate_wf _ _ _ ih
    by_cases hk : k = 0
    · subst hk
      rw [if_pos rfl]
      exact ((hsh.map Player.id).nodup_iff).mpr h0.1
    · rw [if_neg hk]
      exact (((get_standings_perm _).map Player.id).nodup_iff).mpr ih.1

lemma create_wf (names : List String) (n : Nat) (shuffled : List Player)
    (hsh : shuffled.Perm (initPlayers names)) :
    PlayersWF (SwissTournament.create names n shuffled).players := by
  unfold SwissTournament.create
  exact foldgen_wf shuffled n _ (initPlayers_wf names) hsh

lemma reachable_wf (t : SwissTournament) (h : Reachable t) :
    PlayersWF t.players := by
  induction h with
  | init names n shuffled hperm => exact create_wf names n shuffled hperm
  | record rn mn a b ht ih => exact wf_of_idOpps (record_result_idOpps _ rn mn a b) ih
  | gen rn avail ht hperm ih =>
    exact generate_wf _ rn avail ih (((hperm.map Player.id).nodup_iff).mpr ih.1)

/-- C10: in every reachable tournament state the opponents-played relation
is symmetric and irreflexive — `q.id ∈ p.opponents` iff `p.id ∈
q.opponents`, and no competitor's own id is in its own opponents set — and
recording or correcting results never changes any opponents set. -/
theorem opponents_symmetric_irreflexive :
    (∀ t : SwissTournament, Reachable t →
      (∀ p ∈ t.players, ∀ q ∈ t.players, q.id ∈ p.opponents → p.id ∈ q.opponents) ∧
      (∀ p ∈ t.players, p.id ∉ p.opponents)) ∧
    (∀ (t : SwissTournament) (rn mn : Nat) (a b : Int),
      (t.record_result rn mn a b).players.map Player.opponents =
        t.players.map Player.opponents) := by
  constructor
  · intro t ht
    exact ⟨(reachable_wf t ht).2.1, (reachable_wf t ht).2.2⟩
  · intro t rn mn a b
    have h := congrArg (List.map Prod.snd) (record_result_idOpps t rn mn a b)
    rw [List.map_map, List.map_map] at h
    exact h

/-- Witness for C10 at a concrete reachable state (`exT2`, built by the
constructor with the identity shuffle) and a concrete recording. -/
theorem opponents_symmetric_irreflexive_witness :
    ((∀ p ∈ exT2.players, ∀ q ∈ exT2.players,
        q.id ∈ p.opponents → p.id ∈ q.opponents) ∧
      (∀ p ∈ exT2.players, p.id ∉ p.opponents)) ∧
    (exT2.record_result 0 0 5 3).players.map Player.opponents =
      exT2.players.map Player.opponents :=
  ⟨opponents_symmetric_irreflexive.1 exT2
      (Reachable.init ["A", "B"] 1 (initPlayers ["A", "B"]) (List.Perm.refl _)),
    opponents_symmetric_irreflexive.2 exT2 0 0 5 3⟩
